import Mathlib

/-!
# Three-stage 3-DOF inverse kinematics (`3 DOF Inverse Kinematics test.c`)

The solver is embedded once, generically over the scalar type that plays the
role of C's `float`, and then read in exact arithmetic: a scalar is a real
number or `undef`, where `undef` stands for every value that is not a finite
real (IEEE NaN and the infinities).  In that reading a division by zero, a
tangent at a pole and an `asinf`/`acosf` outside `[-1, 1]` are `undef`, and
`undef` is absorbing, so a defined joint angle certifies that every operation
on the way to it was in its domain.

The source computes in binary32.  Rounding is not part of the exact reading,
and it decides the result of the source where the exact reading sits on an
edge: a length of exactly 340, a hypotenuse of exactly 85, an angle of exactly
`π / 2` (no binary32 value is one) or a difference of two equal angles.  The
universally quantified statements on whole solves therefore keep a margin from
those edges (a height of at least 1 or 10, a lateral offset of at least 0, a
stage-3 length of at most 339 or 330) or a tolerance, so that they are
statements the rounded computation satisfies as well.
-/

namespace IK

open scoped Real

/-! ## Scalars -/

/-- Operations of `<math.h>` and of C's `float` arithmetic used by the source. -/
class FloatArith (α : Type) extends Add α, Sub α, Mul α, Div α, Neg α where
  /-- A decimal `float` literal such as `170.0f` or `3.1416f`. -/
  ofRat : ℚ → α
  /-- The conversion `int → float` applied to `rr` in `... * rr`. -/
  ofInt : Int → α
  /-- The call `atan2f(y, x)`: first argument the ordinate. -/
  atan2f : α → α → α
  sinf : α → α
  cosf : α → α
  tanf : α → α
  asinf : α → α
  acosf : α → α
  isnan : α → Bool

export FloatArith (ofRat ofInt atan2f sinf cosf tanf asinf acosf isnan)

/-- Struct `Leg`: the state of one leg. -/
structure Leg (α : Type) where
  id : Int
  theta : α
  phi : α
  gamma : α

section Program

variable {α : Type} [FloatArith α]

/-- Constant `const int rr = 9;`, the reduction ratio. -/
def rr : Int := 9

/-- Constant `const float knee = 170.0f;`, the thigh length. -/
def knee : α := ofRat 170

/-- Constant `const float tibia = 170.0f;`, the shin length. -/
def tibia : α := ofRat 170

/-- Constant `const float yOffset = 85.0f;`, the hip lateral offset. -/
def yOffset : α := ofRat 85

/-- The expression `3.1416f / 2.0f`, which occurs in `z` and in `y`. -/
def halfPiLit : α := ofRat 3.1416 / ofRat 2

/-- Function `float sq(float numb)`. -/
def sq (numb : α) : α := numb * numb

/-- The divisor `2.0f * knee * height` of the first law-of-cosines quotient in `z`. -/
def zDen (height : α) : α := ofRat 2 * knee * height

/-- The argument of `acosf` in `thetaZ` (function `z`). -/
def zArgTheta (height : α) : α := (sq knee + sq height - sq tibia) / zDen height

/-- The argument of `acosf` in `phiZ` (function `z`). -/
def zArgPhi (height : α) : α := (sq knee + sq tibia - sq height) / (ofRat 2 * knee * tibia)

/-- Local `thetaZ` of `z`. -/
def zThetaZ (height : α) : α := (halfPiLit - acosf (zArgTheta height)) * ofInt rr

/-- Local `phiZ` of `z`. -/
def zPhiZ (height : α) : α := acosf (zArgPhi height) * ofInt rr

/-- Function `void z(Leg *leg, float height)`: the leg after the call. -/
def z (leg : Leg α) (height : α) : Leg α :=
  let thetaZ := zThetaZ height
  let phiZ := zPhiZ height
  let leg1 : Leg α := { leg with theta := leg.theta - thetaZ }
  { leg1 with phi := -phiZ }

/-- Function `float x(Leg *leg, float height, float distX)`: the leg after the call and
the returned `newLegLength`. -/
def x (leg : Leg α) (height distX : α) : Leg α × α :=
  let extraTheta := atan2f distX height
  let thetaX := extraTheta * ofInt rr
  let newLegLength := height / cosf extraTheta
  ({ leg with theta := thetaX }, newLegLength)

/-- Local `gammaP` of `y` as the rest of the function uses it, that is after
the `isnan` test. -/
def yGammaP (height posY : α) : α :=
  let distY := yOffset + posY
  let gammaP := atan2f distY height
  if isnan gammaP then halfPiLit else gammaP

/-- Local `hipHyp` of `y`. -/
def yHipHyp (height posY : α) : α := (yOffset + posY) / sinf (yGammaP height posY)

/-- Local `lambda` of `y`. -/
def yLambda (height posY : α) : α := asinf (yOffset / yHipHyp height posY)

/-- Function `float y(Leg *leg, float height, float posY)`: the leg after the call and
the returned `newNewLegLength`. -/
def y (leg : Leg α) (height posY : α) : Leg α × α :=
  let gammaP := yGammaP height posY
  let lambda := yLambda height posY
  let gammaY := (gammaP - lambda) * ofInt rr
  let newNewLegLength := yOffset / tanf lambda
  ({ leg with gamma := gammaY }, newNewLegLength)

/-- Function `void inverseKinematics(Leg *leg, float pos_z, float pos_x, float pos_y)`,
that is `z(leg, x(leg, y(leg, pos_z, pos_y), pos_x))` on one shared record. -/
def inverseKinematics (leg : Leg α) (pos_z pos_x pos_y : α) : Leg α :=
  let r1 := y leg pos_z pos_y
  let r2 := x r1.1 r1.2 pos_x
  z r2.1 r2.2

/-- The length `z` receives inside `inverseKinematics`. -/
def stage3Length (leg : Leg α) (pos_z pos_x pos_y : α) : α :=
  (x (y leg pos_z pos_y).1 (y leg pos_z pos_y).2 pos_x).2

/-- An element `{.id = i}` of the array `legs` in `main`: the joint angles are
zero-initialised. -/
def mkLeg (i : Int) : Leg α := { id := i, theta := ofRat 0, phi := ofRat 0, gamma := ofRat 0 }

end Program

/-! ## Exact arithmetic -/

/-- A scalar in exact arithmetic: a real number, or `undef` for whatever is
not one (NaN, an infinity). -/
inductive Val where
  | undef : Val
  | real (r : ℝ) : Val

namespace Val

/-- Lift of a total binary operation. -/
noncomputable def map₂ (f : ℝ → ℝ → ℝ) : Val → Val → Val
  | real a, real b => real (f a b)
  | _, _ => undef

/-- Lift of a total unary operation. -/
noncomputable def map (f : ℝ → ℝ) : Val → Val
  | real a => real (f a)
  | undef => undef

/-- Division: undefined on a zero divisor.  The source gives NaN for `0 / 0`, the
only division by zero the statements below evaluate; a nonzero value over zero
is an infinity in the source and is not followed further here. -/
noncomputable def div : Val → Val → Val
  | real a, real b => if b = 0 then undef else real (a / b)
  | _, _ => undef

/-- Four-quadrant arctangent `atan2(y, x)`: the argument of `x + y i`, in
`(-π, π]`, with `atan2(0, 0) = 0` as in C. -/
noncomputable def atan2 : Val → Val → Val
  | real yv, real xv => real (Complex.arg ⟨xv, yv⟩)
  | _, _ => undef

/-- Tangent: undefined at its poles.  No binary32 argument is a pole, and no
statement below evaluates the tangent at one: where it is used, the argument
is an arcsine of a ratio strictly below 1. -/
noncomputable def tan : Val → Val
  | real a => if Real.cos a = 0 then undef else real (Real.tan a)
  | undef => undef

/-- Arcsine: undefined outside `[-1, 1]`. -/
noncomputable def asin : Val → Val
  | real a => if -1 ≤ a ∧ a ≤ 1 then real (Real.arcsin a) else undef
  | undef => undef

/-- Arccosine: undefined outside `[-1, 1]`. -/
noncomputable def acos : Val → Val
  | real a => if -1 ≤ a ∧ a ≤ 1 then real (Real.arccos a) else undef
  | undef => undef

/-- The test `isnan`. -/
def isUndef : Val → Bool
  | real _ => false
  | undef => true

end Val

/-- The exact reading of the operations: each is the real operation on its
domain, without rounding. -/
noncomputable instance : FloatArith Val where
  add := Val.map₂ (· + ·)
  sub := Val.map₂ (· - ·)
  mul := Val.map₂ (· * ·)
  div := Val.div
  neg := Val.map (- ·)
  ofRat q := Val.real (q : ℝ)
  ofInt n := Val.real (n : ℝ)
  atan2f := Val.atan2
  sinf := Val.map Real.sin
  cosf := Val.map Real.cos
  tanf := Val.tan
  asinf := Val.asin
  acosf := Val.acos
  isnan := Val.isUndef

/-- Closed form of the length stage 1 returns. -/
noncomputable def yLen (h l : ℝ) : ℝ := √(h * h + (85 + l) * (85 + l) - 85 * 85)

/-- Closed form of the length stage 2 returns, the one stage 3 receives. -/
noncomputable def xLen (h f l : ℝ) : ℝ := √(h * h + (85 + l) * (85 + l) - 85 * 85 + f * f)

open Val

/-- Every divisor met along the chain of a solve is a nonzero real and every
argument of `asinf`/`acosf` is a real in `[-1, 1]`: the sine of the yaw-plane
angle, the hypotenuse and the ratio `yOffset / hipHyp`, the tangent of the
correction angle, the cosine of the extra angle, the divisor
`2 * knee * length` and the two law-of-cosines quotients. -/
def InDomain (leg : Leg Val) (pz px py : Val) : Prop :=
  (∃ s, sinf (yGammaP pz py) = real s ∧ s ≠ 0) ∧
  (∃ H, yHipHyp pz py = real H ∧ H ≠ 0) ∧
  (∃ a, yOffset / yHipHyp pz py = real a ∧ -1 ≤ a ∧ a ≤ 1) ∧
  (∃ tv, tanf (yLambda pz py) = real tv ∧ tv ≠ 0) ∧
  (∃ c, cosf (atan2f px (y leg pz py).2) = real c ∧ c ≠ 0) ∧
  (∃ dv, zDen (stage3Length leg pz px py) = real dv ∧ dv ≠ 0) ∧
  (∃ a, zArgTheta (stage3Length leg pz px py) = real a ∧ -1 ≤ a ∧ a ≤ 1) ∧
  (∃ b, zArgPhi (stage3Length leg pz px py) = real b ∧ -1 ≤ b ∧ b ≤ 1)

/-! ## Evaluation rules of the exact reading -/

@[simp] theorem real_add (a b : ℝ) : real a + real b = real (a + b) := rfl
@[simp] theorem real_sub (a b : ℝ) : real a - real b = real (a - b) := rfl
@[simp] theorem real_mul (a b : ℝ) : real a * real b = real (a * b) := rfl
@[simp] theorem real_neg (a : ℝ) : -real a = real (-a) := rfl
@[simp] theorem real_div (a b : ℝ) :
    real a / real b = if b = 0 then undef else real (a / b) := rfl
@[simp] theorem undef_add (v : Val) : undef + v = undef := rfl
@[simp] theorem add_undef (v : Val) : v + undef = undef := by cases v <;> rfl
@[simp] theorem undef_sub (v : Val) : undef - v = undef := rfl
@[simp] theorem sub_undef (v : Val) : v - undef = undef := by cases v <;> rfl
@[simp] theorem undef_mul (v : Val) : undef * v = undef := rfl
@[simp] theorem mul_undef (v : Val) : v * undef = undef := by cases v <;> rfl
@[simp] theorem undef_div (v : Val) : undef / v = undef := rfl
@[simp] theorem div_undef (v : Val) : v / undef = undef := by cases v <;> rfl
@[simp] theorem neg_undef : -undef = undef := rfl
@[simp] theorem ofRat_val (q : ℚ) : (ofRat q : Val) = real (q : ℝ) := rfl
@[simp] theorem ofInt_val (n : Int) : (ofInt n : Val) = real (n : ℝ) := rfl
@[simp] theorem atan2f_real (a b : ℝ) :
    atan2f (real a) (real b) = real (Complex.arg ⟨b, a⟩) := rfl
@[simp] theorem atan2f_undef_left (v : Val) : atan2f undef v = undef := rfl
@[simp] theorem atan2f_undef_right (v : Val) : atan2f v undef = undef := by
  cases v <;> rfl
@[simp] theorem sinf_real (a : ℝ) : sinf (real a) = real (Real.sin a) := rfl
@[simp] theorem sinf_undef : sinf undef = undef := rfl
@[simp] theorem cosf_real (a : ℝ) : cosf (real a) = real (Real.cos a) := rfl
@[simp] theorem cosf_undef : cosf undef = undef := rfl
@[simp] theorem tanf_real (a : ℝ) :
    tanf (real a) = if Real.cos a = 0 then undef else real (Real.tan a) := rfl
@[simp] theorem tanf_undef : tanf undef = undef := rfl
@[simp] theorem asinf_real (a : ℝ) :
    asinf (real a) = if -1 ≤ a ∧ a ≤ 1 then real (Real.arcsin a) else undef := rfl
@[simp] theorem asinf_undef : asinf undef = undef := rfl
@[simp] theorem acosf_real (a : ℝ) :
    acosf (real a) = if -1 ≤ a ∧ a ≤ 1 then real (Real.arccos a) else undef := rfl
@[simp] theorem acosf_undef : acosf undef = undef := rfl
@[simp] theorem isnan_real (a : ℝ) : isnan (real a) = false := rfl
@[simp] theorem isnan_undef : isnan undef = true := rfl

/-! ## Constants in the exact reading -/

theorem knee_val : (knee : Val) = real 170 := by simp [knee]

theorem tibia_val : (tibia : Val) = real 170 := by simp [tibia]

theorem yOffset_val : (yOffset : Val) = real 85 := by simp [yOffset]

theorem halfPiLit_val : (halfPiLit : Val) = real (3.1416 / 2) := by
  simp [halfPiLit]

theorem rr_val : (ofInt rr : Val) = real 9 := by simp [rr]

/-! ## Stage 3 in the exact reading -/

theorem zDen_real (L : ℝ) : zDen (real L) = real (2 * 170 * L) := by
  simp [zDen, knee_val]

theorem zArgTheta_real (L : ℝ) (hL : L ≠ 0) :
    zArgTheta (real L) = real ((170 * 170 + L * L - 170 * 170) / (2 * 170 * L)) := by
  simp [zArgTheta, zDen_real, sq, knee_val, tibia_val, hL]

theorem zArgTheta_zero : zArgTheta (real 0) = undef := by
  simp [zArgTheta, zDen_real, sq, knee_val, tibia_val]

theorem zArgPhi_real (L : ℝ) :
    zArgPhi (real L) = real ((170 * 170 + 170 * 170 - L * L) / (2 * 170 * 170)) := by
  simp [zArgPhi, sq, knee_val, tibia_val]

theorem zArgTheta_eq (L : ℝ) (hL : L ≠ 0) :
    (170 * 170 + L * L - 170 * 170) / (2 * 170 * L) = L / 340 := by
  field_simp
  ring

theorem zArgPhi_eq (L : ℝ) :
    (170 * 170 + 170 * 170 - L * L) / (2 * 170 * 170) = 1 - L ^ 2 / 57800 := by
  field_simp
  ring

theorem zArgPhi_mem (L : ℝ) :
    (-1 ≤ (170 * 170 + 170 * 170 - L * L) / (2 * 170 * 170) ∧
      (170 * 170 + 170 * 170 - L * L) / (2 * 170 * 170) ≤ 1) ↔ -340 ≤ L ∧ L ≤ 340 := by
  rw [zArgPhi_eq]
  constructor
  · rintro ⟨h1, _⟩
    have h2 : L ^ 2 ≤ 340 ^ 2 := by linarith
    exact abs_le.mp (abs_le_of_sq_le_sq h2 (by norm_num))
  · rintro ⟨h1, h2⟩
    have h3 : L ^ 2 ≤ 340 ^ 2 := by nlinarith
    constructor
    · linarith
    · have : 0 ≤ L ^ 2 := sq_nonneg L
      linarith

theorem zArgTheta_mem (L : ℝ) (hL : L ≠ 0) :
    (-1 ≤ (170 * 170 + L * L - 170 * 170) / (2 * 170 * L) ∧
      (170 * 170 + L * L - 170 * 170) / (2 * 170 * L) ≤ 1) ↔ -340 ≤ L ∧ L ≤ 340 := by
  rw [zArgTheta_eq L hL]
  constructor
  · rintro ⟨h1, h2⟩
    constructor <;> linarith
  · rintro ⟨h1, h2⟩
    constructor <;> linarith

/-- Stage 3 on a nonzero length within the reach of the leg. -/
theorem z_real (leg : Leg Val) (L : ℝ) (hL : L ≠ 0) (h1 : -340 ≤ L) (h2 : L ≤ 340) :
    z leg (real L) =
      { leg with
        theta := leg.theta - real ((3.1416 / 2
          - Real.arccos ((170 * 170 + L * L - 170 * 170) / (2 * 170 * L))) * 9)
        phi := real (-(Real.arccos
          ((170 * 170 + 170 * 170 - L * L) / (2 * 170 * 170)) * 9)) } := by
  have ha := (zArgTheta_mem L hL).mpr ⟨h1, h2⟩
  have hb := (zArgPhi_mem L).mpr ⟨h1, h2⟩
  simp only [z, zThetaZ, zPhiZ, zArgTheta_real L hL, zArgPhi_real, halfPiLit_val, rr_val,
    acosf_real, ha, hb, and_self, if_true, real_sub, real_mul, real_neg]

/-- The knee angle of stage 3 needs only the second quotient, whose divisor is
the constant `2 * knee * tibia`. -/
theorem z_phi_real (leg : Leg Val) (L : ℝ) (h1 : -340 ≤ L) (h2 : L ≤ 340) :
    (z leg (real L)).phi = real (-(Real.arccos
      ((170 * 170 + 170 * 170 - L * L) / (2 * 170 * 170)) * 9)) := by
  have hb := (zArgPhi_mem L).mpr ⟨h1, h2⟩
  simp only [z, zPhiZ, zArgPhi_real, rr_val, acosf_real, hb, and_self, if_true, real_mul,
    real_neg]

theorem z_phi_undef (leg : Leg Val) (L : ℝ) (h : L < -340 ∨ 340 < L) :
    (z leg (real L)).phi = undef := by
  have hb : ¬ (-1 ≤ (170 * 170 + 170 * 170 - L * L) / (2 * 170 * 170) ∧
      (170 * 170 + 170 * 170 - L * L) / (2 * 170 * 170) ≤ 1) := by
    rw [zArgPhi_mem]
    rcases h with h | h
    · intro hc; linarith [hc.1]
    · intro hc; linarith [hc.2]
  simp only [z, zPhiZ, zArgPhi_real, rr_val, acosf_real, hb, if_false, undef_mul, neg_undef]

/-! ## Stage 1 in the exact reading -/

theorem abs_mk (a b : ℝ) : Complex.abs ⟨a, b⟩ = √(a * a + b * b) := by
  rw [Complex.abs_apply, Complex.normSq_mk]

theorem hyp_pos (h d : ℝ) (hd : d ≠ 0) : 0 < √(h * h + d * d) := by
  apply Real.sqrt_pos.mpr
  have := mul_self_pos.mpr hd
  nlinarith [mul_self_nonneg h]

/-- In exact arithmetic `atan2f` of two reals is a real, so the `isnan` branch
of `y` is not taken. -/
theorem yGammaP_real (h l : ℝ) :
    yGammaP (real h) (real l) = real (Complex.arg ⟨h, 85 + l⟩) := by
  simp [yGammaP, yOffset_val]

theorem yHipHyp_real (h l : ℝ) (hd : 85 + l ≠ 0) :
    yHipHyp (real h) (real l) = real (√(h * h + (85 + l) * (85 + l))) := by
  have hs := hyp_pos h (85 + l) hd
  simp only [yHipHyp, yGammaP_real, yOffset_val, real_add, sinf_real, Complex.sin_arg,
    abs_mk, real_div]
  rw [if_neg (div_ne_zero hd hs.ne')]
  congr 1
  field_simp

theorem yHipHyp_collapse (h l : ℝ) (hd : 85 + l = 0) :
    yHipHyp (real h) (real l) = undef := by
  simp only [yHipHyp, yGammaP_real, yOffset_val, real_add, sinf_real, Complex.sin_arg,
    abs_mk, real_div, hd, zero_div, if_true]

theorem ratio_mem (h d : ℝ) (hd : d ≠ 0) (hH : 85 * 85 ≤ h * h + d * d) :
    -1 ≤ 85 / √(h * h + d * d) ∧ 85 / √(h * h + d * d) ≤ 1 := by
  have hs := hyp_pos h d hd
  have h85 : (85 : ℝ) ≤ √(h * h + d * d) := by
    apply Real.le_sqrt_of_sq_le
    nlinarith
  constructor
  · have : 0 ≤ 85 / √(h * h + d * d) := by positivity
    linarith
  · exact (div_le_one hs).mpr h85

theorem yLambda_real (h l : ℝ) (hd : 85 + l ≠ 0)
    (hH : 85 * 85 ≤ h * h + (85 + l) * (85 + l)) :
    yLambda (real h) (real l) =
      real (Real.arcsin (85 / √(h * h + (85 + l) * (85 + l)))) := by
  have hs := hyp_pos h (85 + l) hd
  have hm := ratio_mem h (85 + l) hd hH
  simp only [yLambda, yHipHyp_real h l hd, yOffset_val, real_div, if_neg hs.ne', asinf_real,
    hm, and_self, if_true]

/-- The hip yaw written by stage 1. -/
theorem y_gamma_real (leg : Leg Val) (h l : ℝ) (hd : 85 + l ≠ 0)
    (hH : 85 * 85 ≤ h * h + (85 + l) * (85 + l)) :
    (y leg (real h) (real l)).1.gamma =
      real ((Complex.arg ⟨h, 85 + l⟩
        - Real.arcsin (85 / √(h * h + (85 + l) * (85 + l)))) * 9) := by
  simp only [y, yGammaP_real, yLambda_real h l hd hH, rr_val, real_sub, real_mul]

theorem corr_length (S : ℝ) (hS : 85 * 85 < S) :
    Real.cos (Real.arcsin (85 / √S)) ≠ 0 ∧ Real.tan (Real.arcsin (85 / √S)) ≠ 0 ∧
      85 / Real.tan (Real.arcsin (85 / √S)) = √(S - 85 * 85) := by
  have hS0 : 0 < S := by linarith
  have hs : 0 < √S := Real.sqrt_pos.mpr hS0
  have hsq : √S * √S = S := Real.mul_self_sqrt hS0.le
  have hu : (85 / √S) ^ 2 = 85 * 85 / S := by
    rw [div_pow, pow_two (√S), hsq]
    norm_num
  have hr : 0 < 1 - (85 / √S) ^ 2 := by
    rw [hu, sub_pos, div_lt_one hS0]
    exact hS
  have hr2 : 0 < √(1 - (85 / √S) ^ 2) := Real.sqrt_pos.mpr hr
  refine ⟨?_, ?_, ?_⟩
  · rw [Real.cos_arcsin]
    exact hr2.ne'
  · rw [Real.tan_arcsin]
    exact (div_pos (div_pos (by norm_num) hs) hr2).ne'
  · rw [Real.tan_arcsin]
    have e1 : 85 / (85 / √S / √(1 - (85 / √S) ^ 2)) = √S * √(1 - (85 / √S) ^ 2) := by
      field_simp
    rw [e1, ← Real.sqrt_mul hS0.le, hu]
    congr 1
    field_simp

/-- The length returned by stage 1. -/
theorem y_length_real (leg : Leg Val) (h l : ℝ) (hd : 85 + l ≠ 0)
    (hH : 85 * 85 < h * h + (85 + l) * (85 + l)) :
    (y leg (real h) (real l)).2 =
      real (√(h * h + (85 + l) * (85 + l) - 85 * 85)) := by
  obtain ⟨hc, ht, he⟩ := corr_length (h * h + (85 + l) * (85 + l)) hH
  simp only [y, yLambda_real h l hd hH.le, yOffset_val, tanf_real, if_neg hc, real_div,
    if_neg ht, he]

/-! ## Stage 2 in the exact reading -/

theorem cos_extra (L f : ℝ) (hL : L ≠ 0) :
    Real.cos (Complex.arg ⟨L, f⟩) = L / √(L * L + f * f) ∧ L / √(L * L + f * f) ≠ 0 := by
  have hs := hyp_pos f L hL
  rw [add_comm] at hs
  have hne : (⟨L, f⟩ : ℂ) ≠ 0 := by
    intro hc
    exact hL (congrArg Complex.re hc)
  exact ⟨by rw [Complex.cos_arg hne, abs_mk], div_ne_zero hL hs.ne'⟩

/-- Stage 2 on a nonzero length. -/
theorem x_real (leg : Leg Val) (L f : ℝ) (hL : L ≠ 0) :
    x leg (real L) (real f) =
      ({ leg with theta := real (Complex.arg ⟨L, f⟩ * 9) }, real (√(L * L + f * f))) := by
  obtain ⟨hcos, hne⟩ := cos_extra L f hL
  have e : L / (L / √(L * L + f * f)) = √(L * L + f * f) := by
    field_simp
  simp only [x, atan2f_real, rr_val, real_mul, cosf_real, hcos, real_div, if_neg hne, e]

/-! ## The chain of the three stages in the exact reading -/

theorem yLen_pos (h l : ℝ) (hH : 85 * 85 < h * h + (85 + l) * (85 + l)) : 0 < yLen h l :=
  Real.sqrt_pos.mpr (by linarith)

theorem xLen_pos (h f l : ℝ) (hH : 85 * 85 < h * h + (85 + l) * (85 + l)) :
    0 < xLen h f l :=
  Real.sqrt_pos.mpr (by nlinarith [mul_self_nonneg f])

theorem xLen_le (h f l : ℝ)
    (hR : h * h + (85 + l) * (85 + l) - 85 * 85 + f * f ≤ 340 * 340) : xLen h f l ≤ 340 := by
  unfold xLen
  rw [Real.sqrt_le_left (by norm_num)]
  nlinarith

theorem xLen_eq (h f l : ℝ) (hH : 85 * 85 < h * h + (85 + l) * (85 + l)) :
    √(yLen h l * yLen h l + f * f) = xLen h f l := by
  unfold yLen xLen
  rw [Real.mul_self_sqrt (by linarith)]

theorem stage3Length_real (leg : Leg Val) (h f l : ℝ) (hd : 85 + l ≠ 0)
    (hH : 85 * 85 < h * h + (85 + l) * (85 + l)) :
    stage3Length leg (real h) (real f) (real l) = real (xLen h f l) := by
  have e1 : (y leg (real h) (real l)).2 = real (yLen h l) := y_length_real leg h l hd hH
  rw [stage3Length, e1, x_real _ _ _ (yLen_pos h l hH).ne', xLen_eq h f l hH]

theorem ik_phi {α : Type} [FloatArith α] (leg : Leg α) (pz px py : α) :
    (inverseKinematics leg pz px py).phi = -zPhiZ (stage3Length leg pz px py) := rfl

theorem ik_gamma {α : Type} [FloatArith α] (leg : Leg α) (pz px py : α) :
    (inverseKinematics leg pz px py).gamma = (y leg pz py).1.gamma := rfl

theorem ik_theta {α : Type} [FloatArith α] (leg : Leg α) (pz px py : α) :
    (inverseKinematics leg pz px py).theta =
      (x (y leg pz py).1 (y leg pz py).2 px).1.theta - zThetaZ (stage3Length leg pz px py) :=
  rfl

theorem zPhiZ_real (L : ℝ) (h1 : -340 ≤ L) (h2 : L ≤ 340) :
    zPhiZ (real L) = real (Real.arccos (1 - L ^ 2 / 57800) * 9) := by
  have hb := (zArgPhi_mem L).mpr ⟨h1, h2⟩
  rw [zArgPhi_eq] at hb
  simp only [zPhiZ, zArgPhi_real, zArgPhi_eq, rr_val, acosf_real, hb, and_self, if_true,
    real_mul]

theorem zThetaZ_real (L : ℝ) (hL : L ≠ 0) (h1 : -340 ≤ L) (h2 : L ≤ 340) :
    zThetaZ (real L) = real ((3.1416 / 2 - Real.arccos (L / 340)) * 9) := by
  have ha := (zArgTheta_mem L hL).mpr ⟨h1, h2⟩
  rw [zArgTheta_eq L hL] at ha
  simp only [zThetaZ, zArgTheta_real L hL, zArgTheta_eq L hL, halfPiLit_val, rr_val,
    acosf_real, ha, and_self, if_true, real_sub, real_mul]

/-- The three joint angles of a solve whose every operation is in its domain. -/
theorem solve_real (leg : Leg Val) (h f l : ℝ) (hd : 85 + l ≠ 0)
    (hH : 85 * 85 < h * h + (85 + l) * (85 + l))
    (hR : h * h + (85 + l) * (85 + l) - 85 * 85 + f * f ≤ 340 * 340) :
    inverseKinematics leg (real h) (real f) (real l) =
      { id := leg.id
        theta := real (Complex.arg ⟨yLen h l, f⟩ * 9
          - (3.1416 / 2 - Real.arccos (xLen h f l / 340)) * 9)
        phi := real (-(Real.arccos (1 - xLen h f l ^ 2 / 57800) * 9))
        gamma := real ((Complex.arg ⟨h, 85 + l⟩
          - Real.arcsin (85 / √(h * h + (85 + l) * (85 + l)))) * 9) } := by
  have hp := xLen_pos h f l hH
  have hle := xLen_le h f l hR
  have e1 : (y leg (real h) (real l)).2 = real (yLen h l) := y_length_real leg h l hd hH
  have e2 : (inverseKinematics leg (real h) (real f) (real l)).theta =
      real (Complex.arg ⟨yLen h l, f⟩ * 9
        - (3.1416 / 2 - Real.arccos (xLen h f l / 340)) * 9) := by
    rw [ik_theta, stage3Length_real leg h f l hd hH,
      zThetaZ_real _ hp.ne' (by linarith) hle, e1, x_real _ _ _ (yLen_pos h l hH).ne']
    rfl
  have e3 : (inverseKinematics leg (real h) (real f) (real l)).phi =
      real (-(Real.arccos (1 - xLen h f l ^ 2 / 57800) * 9)) := by
    rw [ik_phi, stage3Length_real leg h f l hd hH, zPhiZ_real _ (by linarith) hle]
    rfl
  have e4 := y_gamma_real leg h l hd hH.le
  rw [← ik_gamma leg (real h) (real f) (real l)] at e4
  have e5 : (inverseKinematics leg (real h) (real f) (real l)).id = leg.id := rfl
  rw [← e2, ← e3, ← e4, ← e5]

/-- Every divisor of the chain is nonzero and every inverse-trigonometric
argument is in `[-1, 1]`, for a target that satisfies the three conditions. -/
theorem chain_in_domain (leg : Leg Val) (h f l : ℝ) (hd : 85 + l ≠ 0)
    (hH : 85 * 85 < h * h + (85 + l) * (85 + l))
    (hR : h * h + (85 + l) * (85 + l) - 85 * 85 + f * f ≤ 340 * 340) :
    InDomain leg (real h) (real f) (real l) := by
  have hs := hyp_pos h (85 + l) hd
  have hp := xLen_pos h f l hH
  have hle := xLen_le h f l hR
  have hm := ratio_mem h (85 + l) hd hH.le
  obtain ⟨hc, ht, _⟩ := corr_length (h * h + (85 + l) * (85 + l)) hH
  obtain ⟨hcos, hcne⟩ := cos_extra (yLen h l) f (yLen_pos h l hH).ne'
  have hden : 2 * 170 * xLen h f l ≠ 0 := mul_ne_zero (by norm_num) hp.ne'
  refine ⟨⟨(85 + l) / √(h * h + (85 + l) * (85 + l)), ?_, div_ne_zero hd hs.ne'⟩,
    ⟨_, yHipHyp_real h l hd, hs.ne'⟩,
    ⟨85 / √(h * h + (85 + l) * (85 + l)), ?_, hm.1, hm.2⟩,
    ⟨Real.tan (Real.arcsin (85 / √(h * h + (85 + l) * (85 + l)))), ?_, ht⟩,
    ⟨yLen h l / √(yLen h l * yLen h l + f * f), ?_, hcne⟩,
    ⟨2 * 170 * xLen h f l, ?_, hden⟩,
    ⟨_, ?_, (zArgTheta_mem _ hp.ne').mpr ⟨by linarith, hle⟩⟩,
    ⟨_, ?_, (zArgPhi_mem _).mpr ⟨by linarith, hle⟩⟩⟩
  · rw [yGammaP_real, sinf_real, Complex.sin_arg, abs_mk]
  · rw [yHipHyp_real h l hd, yOffset_val, real_div, if_neg hs.ne']
  · rw [yLambda_real h l hd hH.le, tanf_real, if_neg hc]
  · have e1 : (y leg (real h) (real l)).2 = real (yLen h l) := y_length_real leg h l hd hH
    rw [e1, atan2f_real, cosf_real, hcos]
  · rw [stage3Length_real leg h f l hd hH, zDen_real]
  · rw [stage3Length_real leg h f l hd hH, zArgTheta_real _ hp.ne']
  · rw [stage3Length_real leg h f l hd hH, zArgPhi_real]

theorem lit_ne_pi : (3.1416 / 2 : ℝ) ≠ Real.pi / 2 := by
  have := Real.pi_lt_d6
  intro hc
  have h2 : (3.1416 : ℝ) = Real.pi := by linarith
  rw [← h2] at this
  norm_num at this

theorem xLen_axis (h : ℝ) (hh : 0 ≤ h) : xLen h 0 0 = h := by
  unfold xLen
  rw [show h * h + (85 + 0) * (85 + 0) - 85 * 85 + 0 * 0 = h * h by ring]
  exact Real.sqrt_mul_self hh

/-- With no lateral offset the yaw-plane angle and the correction angle of
stage 1 coincide, so the hip yaw is zero. -/
theorem y_gamma_axis (leg : Leg Val) (h : ℝ) (hh : 0 ≤ h) :
    (y leg (real h) (real 0)).1.gamma = real 0 := by
  rw [y_gamma_real leg h 0 (by norm_num) (by nlinarith [mul_self_nonneg h]),
    Complex.arg_of_re_nonneg (show 0 ≤ (⟨h, 85 + 0⟩ : ℂ).re from hh), abs_mk]
  simp

theorem zThetaZ_undef (L : ℝ) (hL : 340 < L) : zThetaZ (real L) = undef := by
  have h0 : L ≠ 0 := by linarith
  have hn : ¬ (-1 ≤ L / 340 ∧ L / 340 ≤ 1) := by
    intro hc
    have := hc.2
    rw [div_le_one (by norm_num)] at this
    linarith
  simp only [zThetaZ, zArgTheta_real L h0, zArgTheta_eq L h0, acosf_real, if_neg hn,
    sub_undef, undef_mul]

theorem yGammaP_collapse (h : ℝ) (hh : 0 ≤ h) : yGammaP (real h) (real (-85)) = real 0 := by
  rw [yGammaP_real]
  congr 1
  rw [Complex.arg_eq_zero_iff]
  exact ⟨hh, by norm_num⟩

theorem y_gamma_collapse (leg : Leg Val) (h l : ℝ) (hd : 85 + l = 0) :
    (y leg (real h) (real l)).1.gamma = undef := by
  simp [y, yLambda, yHipHyp_collapse h l hd]

theorem mkLeg_theta (i : Int) : (mkLeg i : Leg Val).theta = real 0 := by
  simp [mkLeg]

theorem z_theta_real (leg : Leg Val) (t L : ℝ) (ht : leg.theta = real t) (hL : L ≠ 0)
    (h1 : -340 ≤ L) (h2 : L ≤ 340) :
    (z leg (real L)).theta = real (t - (3.1416 / 2
      - Real.arccos ((170 * 170 + L * L - 170 * 170) / (2 * 170 * L))) * 9) := by
  rw [z_real leg L hL h1 h2]
  simp only [ht, real_sub]

theorem zArgs_out (L : ℝ) (hL : 340 < L) :
    1 < (170 * 170 + L * L - 170 * 170) / (2 * 170 * L) ∧
      (170 * 170 + 170 * 170 - L * L) / (2 * 170 * 170) < -1 := by
  have h0 : L ≠ 0 := by linarith
  rw [zArgTheta_eq L h0, zArgPhi_eq]
  constructor
  · rw [one_lt_div (by norm_num)]
    exact hL
  · have : 340 ^ 2 < L ^ 2 := by nlinarith
    linarith

theorem stage3Length_scenarioD (leg : Leg Val) :
    stage3Length leg (real 1) (real 0) (real 1000) = real (√1170001) := by
  rw [stage3Length_real leg 1 0 1000 (by norm_num) (by norm_num)]
  unfold xLen
  norm_num

theorem sqrt_scenarioD : (340 : ℝ) < √1170001 := by
  rw [Real.lt_sqrt (by norm_num)]
  norm_num

/-! ## Frame of the solve -/

/-- Claim C1: `inverseKinematics` returns a leg with the id it was given, for
every leg record, every target and every scalar arithmetic; the only fields
the solve can change are `theta`, `phi` and `gamma`. -/
theorem inverseKinematics_id {α : Type} [FloatArith α] (leg : Leg α)
    (pos_z pos_x pos_y : α) :
    (inverseKinematics leg pos_z pos_x pos_y).id = leg.id := rfl

/-! ## Definedness of the solve -/

/-- Claim C2, counterexample: the target height 10, foreAft 0, lateral -85 has
a straight-line hip-to-foot distance strictly between 0 and 340, yet the sine
of the yaw-plane angle, a divisor of the chain, is zero and gamma is
undefined. -/
theorem solve_finite_counterexample :
    0 < √((10 : ℝ) ^ 2 + 0 ^ 2 + (-85) ^ 2) ∧ √((10 : ℝ) ^ 2 + 0 ^ 2 + (-85) ^ 2) < 340 ∧
    sinf (yGammaP (real 10) (real (-85))) = real 0 ∧
    (inverseKinematics (mkLeg 0) (real 10) (real 0) (real (-85))).gamma = undef := by
  refine ⟨?_, ?_, ?_, ?_⟩
  · apply Real.sqrt_pos.mpr
    norm_num
  · rw [Real.sqrt_lt' (by norm_num)]
    norm_num
  · rw [yGammaP_collapse 10 (by norm_num), sinf_real, Real.sin_zero]
  · rw [ik_gamma]
    exact y_gamma_collapse _ 10 (-85) (by norm_num)

/-- Claim C2, amended: for every target with `height ≥ 1`, `lateral ≥ 0` and
`height^2 + (85 + lateral)^2 - 85^2 + foreAft^2 ≤ 339^2` (the square of the
length stage 3 receives, kept 1 below the reach 340), `inverseKinematics`
yields finite theta, phi and gamma, every divisor along the chain is nonzero
and every `asinf`/`acosf` argument lies in `[-1, 1]`. -/
theorem solve_finite (leg : Leg Val) (h f l : ℝ) (hh : 1 ≤ h) (hl : 0 ≤ l)
    (hR : h ^ 2 + (85 + l) ^ 2 - 85 ^ 2 + f ^ 2 ≤ 339 ^ 2) :
    (∃ t p g, inverseKinematics leg (real h) (real f) (real l) =
      { id := leg.id, theta := real t, phi := real p, gamma := real g }) ∧
    InDomain leg (real h) (real f) (real l) := by
  simp only [pow_two] at hR
  have hd : 85 + l ≠ 0 := by linarith
  have hH : 85 * 85 < h * h + (85 + l) * (85 + l) := by nlinarith
  have hR2 : h * h + (85 + l) * (85 + l) - 85 * 85 + f * f ≤ 340 * 340 := by linarith
  exact ⟨⟨_, _, _, solve_real leg h f l hd hH hR2⟩, chain_in_domain leg h f l hd hH hR2⟩

/-- Witness of C2 at the target height 10, foreAft 10, lateral 5 of reference
leg 0. -/
theorem solve_finite_witness :
    (1 : ℝ) ≤ 10 ∧ (0 : ℝ) ≤ 5 ∧
    (10 : ℝ) ^ 2 + (85 + 5) ^ 2 - 85 ^ 2 + 10 ^ 2 ≤ 339 ^ 2 ∧
    ((∃ t p g, inverseKinematics (mkLeg 0) (real 10) (real 10) (real 5) =
      { id := 0, theta := real t, phi := real p, gamma := real g }) ∧
    InDomain (mkLeg 0) (real 10) (real 10) (real 5)) :=
  ⟨by norm_num, by norm_num, by norm_num,
    solve_finite (mkLeg 0) 10 10 5 (by norm_num) (by norm_num) (by norm_num)⟩

/-! ## The knee angle -/

/-- Claim C3: when the length passed to stage 3 lies in `[0, 340]`, the phi
written by the solve is a real number and `phi ≤ 0`; the same holds of stage 3
alone on any such length. -/
theorem knee_sign (leg : Leg Val) (h f l L : ℝ)
    (hL : stage3Length leg (real h) (real f) (real l) = real L) (h0 : 0 ≤ L)
    (h1 : L ≤ 340) :
    (∃ p, (inverseKinematics leg (real h) (real f) (real l)).phi = real p ∧ p ≤ 0) ∧
    (∃ p, (z leg (real L)).phi = real p ∧ p ≤ 0) := by
  have hz : zPhiZ (real L) = real (Real.arccos (1 - L ^ 2 / 57800) * 9) :=
    zPhiZ_real L (by linarith) h1
  have hn : -(Real.arccos (1 - L ^ 2 / 57800) * 9) ≤ 0 := by
    have := Real.arccos_nonneg (1 - L ^ 2 / 57800)
    linarith
  refine ⟨⟨_, ?_, hn⟩, ⟨_, ?_, hn⟩⟩
  · rw [ik_phi, hL, hz]
    rfl
  · show -zPhiZ (real L) = _
    rw [hz]
    rfl

/-- Witness of C3 at the target height 10, foreAft 0, lateral 0 of reference
leg 3, whose stage-3 length is 10. -/
theorem knee_sign_witness :
    stage3Length (mkLeg 3) (real 10) (real 0) (real 0) = real 10 ∧
    (∃ p, (inverseKinematics (mkLeg 3) (real 10) (real 0) (real 0)).phi = real p ∧ p ≤ 0) ∧
    (∃ p, (z (mkLeg 3) (real 10)).phi = real p ∧ p ≤ 0) :=
  have e : stage3Length (mkLeg 3) (real 10) (real 0) (real 0) = real 10 := by
    rw [stage3Length_real _ 10 0 0 (by norm_num) (by norm_num), xLen_axis 10 (by norm_num)]
  ⟨e, knee_sign (mkLeg 3) 10 0 0 10 e (by norm_num) (by norm_num)⟩

/-- Claim C5, counterexample: at height 170, foreAft 0, lateral 0 the solve
writes `gamma = 0`. -/
theorem gamma_lateral_zero_counterexample :
    (inverseKinematics (mkLeg 0) (real 170) (real 0) (real 0)).gamma = real 0 := by
  rw [ik_gamma]
  exact y_gamma_axis _ 170 (by norm_num)

/-- Claim C5, amended: with `yOffset = 85`, for every height > 0 and every
foreAftOffset, solving with lateralOffset = 0 yields a real gamma of magnitude
at most `0.01`: the yaw-plane angle and the correction angle cancel (exactly
so in exact arithmetic, up to a rounding residue in binary32). -/
theorem gamma_lateral_small (leg : Leg Val) (h f : ℝ) (hh : 0 < h) :
    ∃ g, (inverseKinematics leg (real h) (real f) (real 0)).gamma = real g ∧
      |g| ≤ 0.01 := by
  refine ⟨0, ?_, ?_⟩
  · rw [ik_gamma]
    exact y_gamma_axis leg h hh.le
  · rw [abs_zero]
    norm_num

/-- Witness of C5 at height 10, foreAft 10, lateral 0. -/
theorem gamma_lateral_small_witness :
    (0 : ℝ) < 10 ∧
    ∃ g, (inverseKinematics (mkLeg 0) (real 10) (real 10) (real 0)).gamma = real g ∧
      |g| ≤ 0.01 :=
  ⟨by norm_num, gamma_lateral_small (mkLeg 0) 10 10 (by norm_num)⟩

/-- Claim C6: at height 0 and lateralOffset 0 the yaw-plane angle of stage 1
is exactly `π / 2`, its sine is nonzero, the arcsine argument
`yOffset / hipHyp` lies in `[-1, 1]`, and gamma is the real number
`(π / 2 - asin (yOffset / hipHyp)) * rr`, with `hipHyp = 85`; this gamma is 0. -/
theorem degenerate_height (leg : Leg Val) (f : ℝ) :
    yGammaP (real 0) (real 0) = real (π / 2) ∧
    (∃ s, sinf (yGammaP (real 0) (real 0)) = real s ∧ s ≠ 0) ∧
    yHipHyp (real 0) (real 0) = real 85 ∧
    (∃ a, yOffset / yHipHyp (real 0) (real 0) = real a ∧ -1 ≤ a ∧ a ≤ 1) ∧
    (y leg (real 0) (real 0)).1.gamma = real ((π / 2 - Real.arcsin (85 / 85)) * 9) ∧
    (inverseKinematics leg (real 0) (real f) (real 0)).gamma = real 0 := by
  have hg : yGammaP (real 0) (real 0) = real (π / 2) := by
    rw [yGammaP_real]
    congr 1
    rw [Complex.arg_eq_pi_div_two_iff]
    exact ⟨rfl, by norm_num⟩
  have hH : yHipHyp (real 0) (real 0) = real 85 := by
    rw [yHipHyp_real 0 0 (by norm_num)]
    congr 1
    rw [show (0 : ℝ) * 0 + (85 + 0) * (85 + 0) = 85 * 85 by norm_num]
    exact Real.sqrt_mul_self (by norm_num)
  have h0 : (y leg (real 0) (real 0)).1.gamma = real 0 := y_gamma_axis leg 0 le_rfl
  refine ⟨hg, ⟨1, ?_, one_ne_zero⟩, hH, ⟨1, ?_, by norm_num, le_rfl⟩, ?_, ?_⟩
  · rw [hg, sinf_real, Real.sin_pi_div_two]
  · rw [hH, yOffset_val, real_div, if_neg (by norm_num)]
    norm_num
  · rw [h0]
    congr 1
    rw [div_self (by norm_num), Real.arcsin_one]
    ring
  · rw [ik_gamma]
    exact h0

/-! ## Stage 3 -/

/-- Claim C7, counterexample: on the leg `{.id = 0}` (theta 0) and the length
170, the theta left by stage 3 is not `0 - (π / 2 - acos (...)) * 9`: the
code subtracts from the literal `3.1416 / 2`, which is not `π / 2`. -/
theorem z_formula_counterexample :
    (z (mkLeg 0) (real 170)).theta ≠
      real (0 - (π / 2 - Real.arccos ((170 ^ 2 + 170 ^ 2 - 170 ^ 2) / (2 * 170 * 170))) * 9) := by
  rw [z_theta_real (mkLeg 0) 0 170 (mkLeg_theta 0) (by norm_num) (by norm_num) (by norm_num)]
  intro hc
  have h1 := Val.real.inj hc
  simp only [pow_two] at h1
  apply lit_ne_pi
  linarith

/-- Claim C7, amended: for every leg with a real theta `t` and every length
`L ≠ 0` with `-340 ≤ L ≤ 340`, stage 3 leaves
`theta = t - (3.1416 / 2 - acos ((knee^2 + L^2 - tibia^2) / (2 * knee * L))) * rr`
and sets `phi = -(acos ((knee^2 + tibia^2 - L^2) / (2 * knee * tibia)) * rr)`,
with knee = tibia = 170 and rr = 9; the quarter turn is the literal
`3.1416 / 2`, which differs from `π / 2` by less than `0.00001`. -/
theorem z_formula (leg : Leg Val) (t L : ℝ) (ht : leg.theta = real t) (hL : L ≠ 0)
    (h1 : -340 ≤ L) (h2 : L ≤ 340) :
    (z leg (real L)).theta = real (t - (3.1416 / 2
      - Real.arccos ((170 ^ 2 + L ^ 2 - 170 ^ 2) / (2 * 170 * L))) * 9) ∧
    (z leg (real L)).phi =
      real (-(Real.arccos ((170 ^ 2 + 170 ^ 2 - L ^ 2) / (2 * 170 * 170)) * 9)) ∧
    (halfPiLit : Val) = real (3.1416 / 2) ∧ |(3.1416 / 2 : ℝ) - π / 2| < 0.00001 := by
  refine ⟨?_, ?_, halfPiLit_val, ?_⟩
  · simp only [pow_two]
    exact z_theta_real leg t L ht hL h1 h2
  · simp only [pow_two]
    exact z_phi_real leg L h1 h2
  · have hlo := Real.pi_gt_d6
    have hhi := Real.pi_lt_d6
    rw [abs_lt]
    constructor <;> norm_num <;> linarith

/-- Witness of C7 on the leg `{.id = 0}` and the length 170. -/
theorem z_formula_witness :
    (z (mkLeg 0) (real 170)).theta = real (0 - (3.1416 / 2
      - Real.arccos ((170 ^ 2 + 170 ^ 2 - 170 ^ 2) / (2 * 170 * 170))) * 9) ∧
    (z (mkLeg 0) (real 170)).phi =
      real (-(Real.arccos ((170 ^ 2 + 170 ^ 2 - 170 ^ 2) / (2 * 170 * 170)) * 9)) ∧
    (halfPiLit : Val) = real (3.1416 / 2) ∧ |(3.1416 / 2 : ℝ) - π / 2| < 0.00001 :=
  z_formula (mkLeg 0) 0 170 (mkLeg_theta 0) (by norm_num) (by norm_num) (by norm_num)

/-- Claim C8, counterexample: the length 0 lies in `[0, 340]`, yet the divisor
`2 * knee * 0` is zero and the first law-of-cosines quotient is undefined. -/
theorem z_domain_counterexample :
    zDen (real 0) = real 0 ∧ zArgTheta (real 0) = undef := by
  refine ⟨?_, zArgTheta_zero⟩
  rw [zDen_real]
  norm_num

/-- Claim C8, amended: for every length `L` given to stage 3, the divisor
`2 * knee * L` is nonzero and both law-of-cosines arguments lie in `[-1, 1]`
exactly when `L ≠ 0` and `-340 ≤ L ≤ 340`, in particular for `L` in
`(0, 340]`; for `L > 340` the first argument is above 1 and the second below
-1, as for the length `√1170001` reached from the target height 1, foreAft 0,
lateral 1000, where phi and theta are undefined. -/
theorem z_domain (leg : Leg Val) (L : ℝ) :
    (((∃ dv, zDen (real L) = real dv ∧ dv ≠ 0) ∧
        (∃ a, zArgTheta (real L) = real a ∧ -1 ≤ a ∧ a ≤ 1) ∧
        (∃ b, zArgPhi (real L) = real b ∧ -1 ≤ b ∧ b ≤ 1)) ↔
      (L ≠ 0 ∧ -340 ≤ L ∧ L ≤ 340)) ∧
    (340 < L → ∃ a b, zArgTheta (real L) = real a ∧ 1 < a ∧
      zArgPhi (real L) = real b ∧ b < -1) ∧
    (stage3Length leg (real 1) (real 0) (real 1000) = real (√1170001) ∧
      340 < √1170001 ∧
      (inverseKinematics leg (real 1) (real 0) (real 1000)).phi = undef ∧
      (inverseKinematics leg (real 1) (real 0) (real 1000)).theta = undef) := by
  refine ⟨⟨?_, ?_⟩, ?_, stage3Length_scenarioD leg, sqrt_scenarioD, ?_, ?_⟩
  · rintro ⟨⟨dv, hdv, hne⟩, -, ⟨b, hb, hb1, hb2⟩⟩
    rw [zDen_real] at hdv
    rw [zArgPhi_real] at hb
    have hL : L ≠ 0 := by
      intro h0
      apply hne
      rw [← Val.real.inj hdv, h0]
      norm_num
    have hb3 := Val.real.inj hb
    rw [← hb3] at hb1 hb2
    exact ⟨hL, (zArgPhi_mem L).mp ⟨hb1, hb2⟩⟩
  · rintro ⟨hL, h1, h2⟩
    have ha := (zArgTheta_mem L hL).mpr ⟨h1, h2⟩
    have hb := (zArgPhi_mem L).mpr ⟨h1, h2⟩
    exact ⟨⟨_, zDen_real L, mul_ne_zero (by norm_num) hL⟩,
      ⟨_, zArgTheta_real L hL, ha.1, ha.2⟩, ⟨_, zArgPhi_real L, hb.1, hb.2⟩⟩
  · intro hL
    have h0 : L ≠ 0 := by linarith
    obtain ⟨ha, hb⟩ := zArgs_out L hL
    exact ⟨_, _, zArgTheta_real L h0, ha, zArgPhi_real L, hb⟩
  · rw [ik_phi, stage3Length_scenarioD]
    exact z_phi_undef leg _ (Or.inr sqrt_scenarioD)
  · rw [ik_theta, stage3Length_scenarioD, zThetaZ_undef _ sqrt_scenarioD, sub_undef]

/-! ## The yaw-plane angle of stage 1 -/

/-- Claim C9, counterexample: at height 10 and lateralOffset -85 (both real)
the yaw-plane angle used after the `isnan` test is 0, its sine is 0 and the
hypotenuse `distY / sin (gammaP)` is a division by zero. -/
theorem yaw_angle_nonzero_counterexample :
    yGammaP (real 10) (real (-85)) = real 0 ∧
    sinf (yGammaP (real 10) (real (-85))) = real 0 ∧
    yHipHyp (real 10) (real (-85)) = undef := by
  have hg := yGammaP_collapse 10 (by norm_num)
  refine ⟨hg, ?_, yHipHyp_collapse 10 (-85) (by norm_num)⟩
  rw [hg, sinf_real, Real.sin_zero]

/-- Claim C9, amended: in stage 1, for every real height and lateralOffset
with `yOffset + lateralOffset ≠ 0`, the yaw-plane angle used after the `isnan`
test is nonzero, its sine is nonzero and the hypotenuse
`distY / sin (gammaP)` is defined. -/
theorem yaw_angle_nonzero (h l : ℝ) (hd : 85 + l ≠ 0) :
    ∃ g s H, yGammaP (real h) (real l) = real g ∧ g ≠ 0 ∧
      sinf (yGammaP (real h) (real l)) = real s ∧ s ≠ 0 ∧
      yHipHyp (real h) (real l) = real H := by
  have hs := hyp_pos h (85 + l) hd
  refine ⟨_, (85 + l) / √(h * h + (85 + l) * (85 + l)), _, yGammaP_real h l, ?_, ?_,
    div_ne_zero hd hs.ne', yHipHyp_real h l hd⟩
  · intro hc
    rw [Complex.arg_eq_zero_iff] at hc
    exact hd hc.2
  · rw [yGammaP_real, sinf_real, Complex.sin_arg, abs_mk]

/-- Witness of C9 at height 10 and lateralOffset 5. -/
theorem yaw_angle_nonzero_witness :
    (85 + 5 : ℝ) ≠ 0 ∧
    ∃ g s H, yGammaP (real 10) (real 5) = real g ∧ g ≠ 0 ∧
      sinf (yGammaP (real 10) (real 5)) = real s ∧ s ≠ 0 ∧
      yHipHyp (real 10) (real 5) = real H :=
  ⟨by norm_num, yaw_angle_nonzero 10 5 (by norm_num)⟩

/-- Claim C10, the code at height 0 and lateralOffset -85: `atan2f(0, 0)` is 0,
which is not NaN, so the `isnan` test fails and the angle the rest of stage 1
uses is 0, not the clamp value; the hypotenuse is then `0 / 0` and gamma is
undefined.  The clamp is reached only from an undefined argument. -/
theorem clamp_not_engaged (leg : Leg Val) :
    atan2f (yOffset + real (-85)) (real 0) = real 0 ∧
    isnan (atan2f (yOffset + real (-85)) (real 0)) = false ∧
    yGammaP (real 0) (real (-85)) = real 0 ∧
    yGammaP (real 0) (real (-85)) ≠ halfPiLit ∧
    yGammaP (real 0) (real (-85)) ≠ real (π / 2) ∧
    yHipHyp (real 0) (real (-85)) = undef ∧
    (y leg (real 0) (real (-85))).1.gamma = undef ∧
    yGammaP undef (real (-85)) = halfPiLit := by
  have hg := yGammaP_collapse 0 le_rfl
  have ha : atan2f (yOffset + real (-85)) (real 0) = real 0 := by
    rw [yOffset_val, real_add, atan2f_real]
    congr 1
    rw [Complex.arg_eq_zero_iff]
    exact ⟨le_rfl, by norm_num⟩
  refine ⟨ha, ?_, hg, ?_, ?_, yHipHyp_collapse 0 (-85) (by norm_num),
    y_gamma_collapse leg 0 (-85) (by norm_num), ?_⟩
  · rw [ha, isnan_real]
  · rw [hg, halfPiLit_val]
    intro hc
    have := Val.real.inj hc
    norm_num at this
  · rw [hg]
    intro hc
    have := Val.real.inj hc
    linarith [Real.pi_pos]
  · simp [yGammaP]

/-! ## Stage 2 -/

theorem arg_axis (L : ℝ) (hL : 0 ≤ L) : Complex.arg ⟨L, 0⟩ = 0 := by
  rw [Complex.arg_eq_zero_iff]
  exact ⟨hL, rfl⟩

theorem sqrt_axis (L : ℝ) (hL : 0 ≤ L) : √(L * L + 0 * 0) = L := by
  rw [show L * L + 0 * 0 = L * L by ring]
  exact Real.sqrt_mul_self hL

/-- Stage 2 with no fore-aft offset on a positive length. -/
theorem x_axis_real (leg : Leg Val) (L : ℝ) (hL : 0 < L) :
    x leg (real L) (real 0) = ({ leg with theta := real 0 }, real L) := by
  rw [x_real leg L 0 hL.ne', arg_axis L hL.le, sqrt_axis L hL.le, zero_mul]

/-- Claim C13: for every leg and every effective length `L > 0`, stage 2 with
foreAftOffset 0 writes `theta = 0` and returns `L`; hence in a full solve with
foreAft 0 whose stage-1 length is `L`, stage 3 receives `L` and the final
theta is `0 - thetaZ`, the negated stage-3 correction. -/
theorem x_axis (leg : Leg Val) (L : ℝ) (hL : 0 < L) :
    (x leg (real L) (real 0)).1.theta = real 0 ∧
    (x leg (real L) (real 0)).2 = real L ∧
    (∀ h l : ℝ, (y leg (real h) (real l)).2 = real L →
      stage3Length leg (real h) (real 0) (real l) = real L ∧
      (inverseKinematics leg (real h) (real 0) (real l)).theta =
        real 0 - zThetaZ (real L)) := by
  refine ⟨?_, ?_, ?_⟩
  · rw [x_axis_real leg L hL]
  · rw [x_axis_real leg L hL]
  · intro h l hy
    have hs : stage3Length leg (real h) (real 0) (real l) = real L := by
      rw [stage3Length, hy, x_axis_real _ L hL]
    refine ⟨hs, ?_⟩
    rw [ik_theta, hs, hy, x_axis_real _ L hL]

/-- Witness of C13 at the target height 10, foreAft 0, lateral 0 of reference
leg 3, whose stage-1 length is 10. -/
theorem x_axis_witness :
    (y (mkLeg 3) (real 10) (real 0)).2 = real 10 ∧
    (x (mkLeg 3) (real 10) (real 0)).1.theta = real 0 ∧
    (x (mkLeg 3) (real 10) (real 0)).2 = real 10 ∧
    stage3Length (mkLeg 3) (real 10) (real 0) (real 0) = real 10 ∧
    (inverseKinematics (mkLeg 3) (real 10) (real 0) (real 0)).theta =
      real 0 - zThetaZ (real 10) :=
  have hy : (y (mkLeg 3) (real 10) (real 0)).2 = real 10 := by
    rw [y_length_real _ 10 0 (by norm_num) (by norm_num)]
    congr 1
    rw [show (10 : ℝ) * 10 + (85 + 0) * (85 + 0) - 85 * 85 = 10 * 10 by norm_num]
    exact Real.sqrt_mul_self (by norm_num)
  have hx := x_axis (mkLeg 3) 10 (by norm_num)
  ⟨hy, hx.1, hx.2.1, hx.2.2 10 0 hy⟩

/-! ## Frames of the stages -/

/-- Claim C16: for every leg, every input and every scalar arithmetic, stage 1
(`y`) leaves id, theta and phi as they were, stage 2 (`x`) leaves id, phi and
gamma as they were, and stage 3 (`z`) leaves id and gamma as they were. -/
theorem stage_frames {α : Type} [FloatArith α] (leg : Leg α) (a b : α) :
    ((y leg a b).1.id = leg.id ∧ (y leg a b).1.theta = leg.theta ∧
      (y leg a b).1.phi = leg.phi) ∧
    ((x leg a b).1.id = leg.id ∧ (x leg a b).1.phi = leg.phi ∧
      (x leg a b).1.gamma = leg.gamma) ∧
    ((z leg a).id = leg.id ∧ (z leg a).gamma = leg.gamma) :=
  ⟨⟨rfl, rfl, rfl⟩, ⟨rfl, rfl, rfl⟩, ⟨rfl, rfl⟩⟩

/-! ## Independence from the stored angles -/

/-- Claim C18: the result of `inverseKinematics` does not depend on the joint
angles stored in the leg: two legs with the same id give the same record for
the same target, and solving a target twice in a row gives the record of
solving it once.  This holds for every scalar arithmetic. -/
theorem solve_forgets_prior {α : Type} [FloatArith α] (leg1 leg2 : Leg α)
    (pz px py : α) (hid : leg1.id = leg2.id) :
    inverseKinematics leg1 pz px py = inverseKinematics leg2 pz px py ∧
    inverseKinematics (inverseKinematics leg1 pz px py) pz px py =
      inverseKinematics leg1 pz px py := by
  have key : ∀ a b : Leg α, a.id = b.id →
      inverseKinematics a pz px py = inverseKinematics b pz px py := by
    intro a b hab
    cases a
    cases b
    simp only at hab
    subst hab
    rfl
  exact ⟨key leg1 leg2 hid, key _ leg1 rfl⟩

/-- Witness of C18 in exact arithmetic: the leg `{.id = 0}` and a leg with id
0 and the stored angles 1, 2, 3, at the target height 10, foreAft 10,
lateral 5. -/
theorem solve_forgets_prior_witness :
    inverseKinematics (mkLeg 0) (real 10) (real 10) (real 5) =
      inverseKinematics ⟨0, real 1, real 2, real 3⟩ (real 10) (real 10) (real 5) ∧
    inverseKinematics (inverseKinematics (mkLeg 0) (real 10) (real 10) (real 5))
        (real 10) (real 10) (real 5) =
      inverseKinematics (mkLeg 0) (real 10) (real 10) (real 5) :=
  solve_forgets_prior (mkLeg 0) ⟨0, real 1, real 2, real 3⟩ (real 10) (real 10) (real 5) rfl

/-! ## The isosceles leg triangle -/

theorem arccos_isosceles (L : ℝ) (h0 : 0 ≤ L) (h1 : L ≤ 340) :
    Real.arccos (1 - L ^ 2 / 57800) = 2 * Real.arcsin (L / 340) := by
  have hu0 : 0 ≤ L / 340 := by positivity
  have hu1 : L / 340 ≤ 1 := by
    rw [div_le_one (by norm_num)]
    exact h1
  have hc : Real.cos (2 * Real.arcsin (L / 340)) = 1 - L ^ 2 / 57800 := by
    rw [Real.cos_two_mul, Real.cos_sq', Real.sin_arcsin (by linarith) hu1]
    ring
  rw [← hc]
  apply Real.arccos_cos
  · have := Real.arcsin_nonneg.mpr hu0
    linarith
  · have := Real.arcsin_le_pi_div_two (L / 340)
    linarith

theorem phi_isosceles (leg : Leg Val) (L : ℝ) (h0 : 0 ≤ L) (h1 : L ≤ 340) :
    (z leg (real L)).phi = real (-18 * Real.arcsin (L / 340)) := by
  rw [z_phi_real leg L (by linarith) h1, zArgPhi_eq, arccos_isosceles L h0 h1]
  congr 1
  ring

/-- Claim C19: with knee = tibia = 170, for lengths `0 ≤ L1 < L2 ≤ 340` stage
3 sets `phi = -18 * asin (L / 340)` at each of them and the magnitude of phi
is strictly larger at `L2`; phi is 0 at `L = 0` and `-9π` at `L = 340`. -/
theorem knee_isosceles (leg : Leg Val) (L1 L2 : ℝ) (h0 : 0 ≤ L1) (h12 : L1 < L2)
    (h2 : L2 ≤ 340) :
    (z leg (real L1)).phi = real (-(2 * 9) * Real.arcsin (L1 / 340)) ∧
    (z leg (real L2)).phi = real (-(2 * 9) * Real.arcsin (L2 / 340)) ∧
    |-(2 * 9) * Real.arcsin (L1 / 340)| < |-(2 * 9) * Real.arcsin (L2 / 340)| ∧
    (z leg (real 0)).phi = real 0 ∧
    (z leg (real 340)).phi = real (-(9 * π)) ∧ |(-(9 * π))| = 9 * π := by
  have n1 : 0 ≤ Real.arcsin (L1 / 340) := Real.arcsin_nonneg.mpr (by positivity)
  have hlt : Real.arcsin (L1 / 340) < Real.arcsin (L2 / 340) := by
    apply Real.strictMonoOn_arcsin
    · constructor
      · have : 0 ≤ L1 / 340 := by positivity
        linarith
      · rw [div_le_one (by norm_num)]
        linarith
    · constructor
      · have : 0 ≤ L2 / 340 := by
          apply div_nonneg _ (by norm_num)
          linarith
        linarith
      · rw [div_le_one (by norm_num)]
        exact h2
    · exact div_lt_div_of_pos_right h12 (by norm_num)
  have e : (-(2 * 9) : ℝ) = -18 := by norm_num
  refine ⟨?_, ?_, ?_, ?_, ?_, ?_⟩
  · rw [e]
    exact phi_isosceles leg L1 h0 (by linarith)
  · rw [e]
    exact phi_isosceles leg L2 (by linarith) h2
  · rw [abs_of_nonpos (by nlinarith), abs_of_nonpos (by nlinarith)]
    linarith
  · rw [phi_isosceles leg 0 le_rfl (by norm_num)]
    simp
  · rw [phi_isosceles leg 340 (by norm_num) le_rfl]
    congr 1
    rw [div_self (by norm_num), Real.arcsin_one]
    ring
  · rw [abs_neg, abs_of_pos (by positivity)]

/-- Witness of C19 at the lengths 0 and 340. -/
theorem knee_isosceles_witness :
    (z (mkLeg 0) (real 0)).phi = real (-(2 * 9) * Real.arcsin (0 / 340)) ∧
    (z (mkLeg 0) (real 340)).phi = real (-(2 * 9) * Real.arcsin (340 / 340)) ∧
    |-(2 * 9) * Real.arcsin (0 / 340)| < |-(2 * 9) * Real.arcsin (340 / 340)| ∧
    (z (mkLeg 0) (real 0)).phi = real 0 ∧
    (z (mkLeg 0) (real 340)).phi = real (-(9 * π)) ∧ |(-(9 * π))| = 9 * π :=
  knee_isosceles (mkLeg 0) 0 340 le_rfl (by norm_num) le_rfl

/-! ## The hip yaw of the first reference target -/

theorem sqrt8200_pos : 0 < √(8200 : ℝ) := Real.sqrt_pos.mpr (by norm_num)

theorem sqrt8200_sq : √(8200 : ℝ) ^ 2 = 8200 := Real.sq_sqrt (by norm_num)

theorem ratio85 : -1 ≤ 85 / √(8200 : ℝ) ∧ 85 / √(8200 : ℝ) ≤ 1 := by
  have hs := sqrt8200_pos
  constructor
  · have : 0 ≤ 85 / √(8200 : ℝ) := by positivity
    linarith
  · rw [div_le_one hs]
    apply Real.le_sqrt_of_sq_le
    norm_num

theorem scenarioA_abs : Complex.abs ⟨10, 90⟩ = √8200 := by
  rw [abs_mk]
  norm_num

/-- The angle `atan2 (90, 10) - asin (85 / √8200)` lies in `[0, π / 2]`. -/
theorem scenarioA_range :
    0 ≤ Complex.arg ⟨10, 90⟩ - Real.arcsin (85 / √8200) ∧
      Complex.arg ⟨10, 90⟩ - Real.arcsin (85 / √8200) ≤ π / 2 := by
  have hs := sqrt8200_pos
  have ha : Complex.arg ⟨10, 90⟩ = Real.arcsin (90 / √8200) := by
    rw [Complex.arg_of_re_nonneg (show 0 ≤ (⟨10, 90⟩ : ℂ).re by norm_num), scenarioA_abs]
  have hm : Real.arcsin (85 / √8200) ≤ Real.arcsin (90 / √8200) :=
    Real.monotone_arcsin (div_le_div_of_nonneg_right (by norm_num) hs.le)
  have h0 : 0 ≤ Real.arcsin (85 / √8200) := Real.arcsin_nonneg.mpr (by positivity)
  have h1 := Real.arcsin_le_pi_div_two (90 / √8200)
  rw [ha]
  constructor <;> linarith

/-- The sine of that angle is `s - 850 / 8200` for a real `s` with
`0.3424 < s < 0.343`. -/
theorem scenarioA_sin :
    0.23874 < Real.sin (Complex.arg ⟨10, 90⟩ - Real.arcsin (85 / √8200)) ∧
      Real.sin (Complex.arg ⟨10, 90⟩ - Real.arcsin (85 / √8200)) < 0.23935 := by
  have hs := sqrt8200_pos
  have hsq := sqrt8200_sq
  have hne : (⟨10, 90⟩ : ℂ) ≠ 0 := by
    intro hc
    have := congrArg Complex.re hc
    norm_num at this
  have hu : (85 / √(8200 : ℝ)) ^ 2 = 7225 / 8200 := by
    rw [div_pow, hsq]
    norm_num
  have hr : (0 : ℝ) ≤ 1 - (85 / √(8200 : ℝ)) ^ 2 := by
    rw [hu]
    norm_num
  have e : Real.sin (Complex.arg ⟨10, 90⟩ - Real.arcsin (85 / √8200)) =
      90 / √8200 * √(1 - (85 / √(8200 : ℝ)) ^ 2) - 850 / 8200 := by
    rw [Real.sin_sub, Complex.sin_arg, Complex.cos_arg hne, scenarioA_abs,
      Real.sin_arcsin ratio85.1 ratio85.2, Real.cos_arcsin]
    have : (10 : ℝ) / √8200 * (85 / √8200) = 850 / 8200 := by
      rw [div_mul_div_comm, ← pow_two, hsq]
      norm_num
    rw [← this]
  have s0 : 0 ≤ 90 / √8200 * √(1 - (85 / √(8200 : ℝ)) ^ 2) := by positivity
  have s2 : (90 / √8200 * √(1 - (85 / √(8200 : ℝ)) ^ 2)) ^ 2 = 8100 / 8200 * (975 / 8200) := by
    rw [mul_pow, div_pow, hsq, Real.sq_sqrt hr, hu]
    norm_num
  rw [e]
  constructor
  · have : 0.3424 < 90 / √8200 * √(1 - (85 / √(8200 : ℝ)) ^ 2) := by
      by_contra hc
      have hc2 := not_lt.mp hc
      have : (90 / √8200 * √(1 - (85 / √(8200 : ℝ)) ^ 2)) ^ 2 ≤ 0.3424 ^ 2 :=
        pow_le_pow_left₀ s0 hc2 2
      rw [s2] at this
      norm_num at this
    norm_num at this ⊢
    linarith
  · have : 90 / √8200 * √(1 - (85 / √(8200 : ℝ)) ^ 2) < 0.343 := by
      by_contra hc
      have hc2 := not_lt.mp hc
      have : (0.343 : ℝ) ^ 2 ≤ (90 / √8200 * √(1 - (85 / √(8200 : ℝ)) ^ 2)) ^ 2 :=
        pow_le_pow_left₀ (by norm_num) hc2 2
      rw [s2] at this
      norm_num at this
    norm_num at this ⊢
    linarith

/-- Bounds in radians on `atan2 (90, 10) - asin (85 / √8200)`. -/
theorem scenarioA_angle :
    0.24051 ≤ Complex.arg ⟨10, 90⟩ - Real.arcsin (85 / √8200) ∧
      Complex.arg ⟨10, 90⟩ - Real.arcsin (85 / √8200) ≤ 0.24225 := by
  obtain ⟨r0, r1⟩ := scenarioA_range
  obtain ⟨k0, k1⟩ := scenarioA_sin
  have hpi := Real.pi_gt_d2
  constructor
  · by_contra hc
    have hc2 := (not_le.mp hc).le
    have h1 := Real.sin_le_sin_of_le_of_le_pi_div_two (by linarith) (by linarith) hc2
    have h2 := @Real.sin_bound 0.24051 (by rw [abs_le]; constructor <;> norm_num)
    rw [abs_le, abs_of_pos (by norm_num : (0 : ℝ) < 0.24051)] at h2
    have h3 := h2.2
    norm_num at h3 k0 h1
    linarith
  · by_contra hc
    have hc2 := (not_le.mp hc).le
    have h1 := Real.sin_le_sin_of_le_of_le_pi_div_two (by linarith) r1 hc2
    have h2 := @Real.sin_bound 0.24225 (by rw [abs_le]; constructor <;> norm_num)
    rw [abs_le, abs_of_pos (by norm_num : (0 : ℝ) < 0.24225)] at h2
    have h3 := h2.1
    norm_num at h3 k1 h1
    linarith

theorem scenarioA_gamma_real (leg : Leg Val) :
    (inverseKinematics leg (real 10) (real 10) (real 5)).gamma =
      real ((Complex.arg ⟨10, 90⟩ - Real.arcsin (85 / √8200)) * 9) := by
  rw [ik_gamma, y_gamma_real leg 10 5 (by norm_num) (by norm_num)]
  norm_num

/-- Claim C15, counterexample: for reference leg 0 (height 10, foreAft 10,
lateral 5) the solve gives `gamma / 9 = atan2 (90, 10) - asin (85 / √8200)`,
which is not within 0.05 degrees of 4.2 degrees. -/
theorem scenarioA_gamma_counterexample :
    ∃ g, (inverseKinematics (mkLeg 0) (real 10) (real 10) (real 5)).gamma = real g ∧
      g / 9 = Complex.arg ⟨10, 90⟩ - Real.arcsin (85 / √8200) ∧
      ¬ |g / 9 - 4.2 * (π / 180)| ≤ 0.05 * (π / 180) := by
  refine ⟨_, scenarioA_gamma_real _, by ring, ?_⟩
  rw [mul_div_assoc, div_self (by norm_num : (9 : ℝ) ≠ 0), mul_one]
  intro hc
  have h1 := (abs_le.mp hc).2
  have h2 := scenarioA_angle.1
  have hpi := Real.pi_lt_d2
  norm_num at h1 h2
  linarith

/-- Claim C15, amended: for the target height 10, foreAft 10, lateral 5 the
gamma of the solve is about 13.83 degrees times 9:
`gamma / 9 = atan2 (90, 10) - asin (85 / √8200)` lies within 0.05 degrees of
13.83 degrees, between 0.24051 and 0.24225 rad. -/
theorem scenarioA_gamma (leg : Leg Val) :
    ∃ g, (inverseKinematics leg (real 10) (real 10) (real 5)).gamma = real g ∧
      g / 9 = Complex.arg ⟨10, 90⟩ - Real.arcsin (85 / √8200) ∧
      |g / 9 - 13.83 * (π / 180)| ≤ 0.05 * (π / 180) ∧
      0.24051 ≤ g / 9 ∧ g / 9 ≤ 0.24225 := by
  refine ⟨_, scenarioA_gamma_real leg, by ring, ?_⟩
  rw [mul_div_assoc, div_self (by norm_num : (9 : ℝ) ≠ 0), mul_one]
  obtain ⟨h1, h2⟩ := scenarioA_angle
  have hlo := Real.pi_gt_d6
  have hhi := Real.pi_lt_d6
  refine ⟨?_, h1, h2⟩
  rw [abs_le]
  norm_num at h1 h2 hlo hhi ⊢
  constructor <;> linarith

end IK
